import Mathlib

/-!
Verification of `BrainNetworksInPython/classes.py` (scona).

We shallowly embed the caching / registry / collection logic of
`BrainNetwork` and `GraphBundle`.  Python dictionaries are modelled as
association lists with insertion-order semantics (`dUp` is `d[k] = v`,
`dictUpdate` is `d.update(m)`, `dLookup` is `d.get(k)`).  External
collaborators (networkx centrality functions, community detection,
`make_graphs` / `graph_measures` helpers that are not part of the
sources) are taken as function parameters of the embedded operations,
except where a claim requires their behaviour, in which case a
definition is modelled from the spec and documented as such.
-/

/-- Python `dict` as an insertion-ordered association list. -/
abbrev Dict (α β : Type) := List (α × β)

/-- Python `d.get(k)`: first binding of `k` (Python dicts hold each key once). -/
def dLookup [DecidableEq α] : Dict α β → α → Option β
  | [], _ => none
  | (k', v) :: d, k => if k = k' then some v else dLookup d k

/-- Python `d[k] = v`: replace the binding of `k` in place, else append. -/
def dUp [DecidableEq α] : Dict α β → α → β → Dict α β
  | [], k, v => [(k, v)]
  | (k', v') :: d, k, v =>
    if k' = k then (k, v) :: d else (k', v') :: dUp d k v

/-- Python `d.update(m)`: assign every binding of `m` into `d`, in order. -/
def dictUpdate [DecidableEq α] (d m : Dict α β) : Dict α β :=
  m.foldl (fun acc p => dUp acc p.1 p.2) d

/-- A `dict` built from a list of pairs (a Python dict comprehension). -/
def dictOfPairs [DecidableEq α] (l : List (α × β)) : Dict α β :=
  dictUpdate [] l

/-- The keys of a dictionary, in order. -/
def dKeys (d : Dict α β) : List α := d.map Prod.fst

/-- Node identifiers. -/
abbrev Node := Nat

/-- The state of a `BrainNetwork` (a `networkx.Graph` subclass), restricted
to the parts the verified operations read and write: the node list, the
node attributes (grouped by attribute name, as `nx.get_node_attributes`
/ `nx.set_node_attributes` view them), and the graph-level cache slots
`partition`, `global_measures` and the `centroids` presence flag.
`V` is the type of node-attribute / measure values and `P` the type of
the (opaque) module-partition object.
-/
structure BrainNet (V P : Type) where
  gNodes : List Node
  nAttrs : Dict String (Dict Node V)
  partition? : Option P
  global_measures? : Option (Dict String V)
  centroids : Bool

/-- Embeds `nx.get_node_attributes(G, name)`: the nodes of `G` carrying the
attribute, with their values. -/
def get_node_attributes (G : BrainNet V P) (name : String) : Dict Node V :=
  ((dLookup G.nAttrs name).getD []).filter (fun p => p.1 ∈ G.gNodes)

/-- Embeds `nx.set_node_attributes(G, name=name, values=values)`: store a value
of the attribute for every node of `G` listed in `values`. -/
def set_node_attributes (G : BrainNet V P) (name : String)
    (values : Dict Node V) : BrainNet V P :=
  { G with
    nAttrs := dUp G.nAttrs name
      (dictUpdate ((dLookup G.nAttrs name).getD [])
        (values.filter (fun p => p.1 ∈ G.gNodes))) }

/-- Embeds `BrainNetwork.partition`: memoize the community partition — when the
graph has no `partition` cache, call the external `calc_nodal_partition`
(a parameter here), store the nodal partition as the `module` node
attribute and the module partition in the cache. -/
def partitionOp (calc_nodal_partition : BrainNet V P → Dict Node V × P)
    (G : BrainNet V P) : BrainNet V P :=
  match G.partition? with
  | some _ => G
  | none =>
    let np := (calc_nodal_partition G).1
    let mp := (calc_nodal_partition G).2
    let G1 := set_node_attributes G "module" np
    { G1 with partition? := some mp }

/-- A nodal measure: a function from the graph to a node-keyed mapping. -/
abbrev MeasureFn (V P : Type) := BrainNet V P → Dict Node V

/-- The external networkx / `graph_measures` functions referenced by
`calculate_nodal_measures`, taken as parameters of the embedding
(their implementations are outside `classes.py`).
`participation_coefficient` receives the graph's `partition` cache slot,
mirroring the source's `x.graph['partition']` access.
-/
structure NxLib (V P : Type) where
  degree : MeasureFn V P
  closeness_centrality : MeasureFn V P
  betweenness_centrality : MeasureFn V P
  clustering : MeasureFn V P
  participation_coefficient : BrainNet V P → Option P → Dict Node V

/-- The default nodal-measure registry of
`BrainNetwork.calculate_nodal_measures` (`classes.py` lines 108–117),
entry for entry.  Note that the source wires `nx.betweenness_centrality`
to BOTH the `betweenness` and the `shortest_path_length` keys. -/
def nodal_measure_dict (lib : NxLib V P) : Dict String (MeasureFn V P) :=
  [("degree", lib.degree),
   ("closeness", lib.closeness_centrality),
   ("betweenness", lib.betweenness_centrality),
   ("shortest_path_length", lib.betweenness_centrality),
   ("clustering", lib.clustering),
   ("participation_coefficient",
     fun x => lib.participation_coefficient x x.partition?)]

/-- The inner `calc_nodal_measure` closure: compute and store a measure
only when no node carries the attribute yet (`not
nx.get_node_attributes(...)`) or `force` is set. -/
def calc_nodal_measure (G : BrainNet V P) (measure : String)
    (method : MeasureFn V P) (force : Bool) : BrainNet V P :=
  if (get_node_attributes G measure).isEmpty || force then
    set_node_attributes G measure (method G)
  else
    G

/-- The per-measure loop of `calculate_nodal_measures`. -/
def nodalFold (d : Dict String (MeasureFn V P)) (force : Bool)
    (G : BrainNet V P) : BrainNet V P :=
  d.foldl (fun g p => calc_nodal_measure g p.1 p.2 force) G

/-- Embeds `BrainNetwork.calculate_nodal_measures`: ensure the partition,
restrict / extend the registry, run the guarded per-measure loop, then —
when the graph carries centroid data — run the external distance and
interhemispheric assignments (parameters `assign_nodal_distance`,
`assign_interhem`, implemented outside `classes.py`). -/
def calculate_nodal_measures (lib : NxLib V P)
    (calc_nodal_partition : BrainNet V P → Dict Node V × P)
    (assign_nodal_distance assign_interhem : BrainNet V P → BrainNet V P)
    (G : BrainNet V P) (force : Bool)
    (measure_list : Option (List String))
    (additional_measures : Option (Dict String (MeasureFn V P))) :
    BrainNet V P :=
  let G1 := partitionOp calc_nodal_partition G
  let d := nodal_measure_dict lib
  let d := match measure_list with
    | none => d
    | some l => d.filter (fun p => p.1 ∈ l)
  let d := match additional_measures with
    | none => d
    | some m => dictUpdate d m
  let G2 := nodalFold d force G1
  if G2.centroids then
    let G3 := match measure_list with
      | none => assign_nodal_distance G2
      | some l =>
        if "nodal_distance" ∈ l then assign_nodal_distance G2 else G2
    match measure_list with
    | none => assign_interhem G3
    | some l => if "interhem" ∈ l then assign_interhem G3 else G3
  else
    G2

/-- Embeds `BrainNetwork.threshold`: the source returns
`threshold_graph(self, cost, mst=True)` — the literal `True`, not the
caller's `mst` argument.  `threshold_graph` (from `make_graphs`, outside
`classes.py`) is a parameter. -/
def threshold (threshold_graph : BrainNet V P → C → Bool → BrainNet V P)
    (G : BrainNet V P) (cost : C) (mst : Bool) : BrainNet V P :=
  threshold_graph G cost true

/-- Embeds the `partition=dict(self.nodes(data="module"))` argument of
`calculate_global_measures`: every node with its `module` attribute, or
`none` for nodes lacking it. -/
def modulePartition (G : BrainNet V P) : Dict Node (Option V) :=
  G.gNodes.map (fun n => (n, dLookup (get_node_attributes G "module") n))

/-- Modelled from the spec: the external `calculate_global_measures` of
`BrainNetworksInPython.graph_measures` (that file is not among the
sources).  Per §4.5 it computes a fixed suite of whole-graph measures
(the suite and the per-measure computation are parameters); when
`existing_global_measures` is provided, only the measures not already
present are computed and merged into the existing mapping, leaving the
present values untouched. -/
def calculate_global_measures_ext (suite : List String)
    (compute : String → BrainNet V P → Dict Node (Option V) → V)
    (G : BrainNet V P) (partition : Dict Node (Option V))
    (existing_global_measures : Option (Dict String V)) : Dict String V :=
  match existing_global_measures with
  | none => suite.map (fun s => (s, compute s G partition))
  | some e =>
    suite.foldl
      (fun acc s =>
        if (dLookup acc s).isSome then acc else dUp acc s (compute s G partition))
      e

/-- Embeds `BrainNetwork.calculate_global_measures`: recompute the full suite
when the cache is absent or `force` is set; otherwise compute against
the existing cache and `dict.update` the cache with the result.  The
`seed` argument is accepted but never used by the source.  Returns the
updated graph together with the returned mapping. -/
def calculate_global_measures (suite : List String)
    (compute : String → BrainNet V P → Dict Node (Option V) → V)
    (G : BrainNet V P) (force : Bool) (seed : Option Nat) :
    BrainNet V P × Dict String V :=
  if G.global_measures?.isNone || force then
    let gm := calculate_global_measures_ext suite compute G (modulePartition G) none
    ({ G with global_measures? := some gm }, gm)
  else
    let existing := G.global_measures?.getD []
    let gm := calculate_global_measures_ext suite compute G (modulePartition G)
      (some existing)
    let merged := dictUpdate existing gm
    ({ G with global_measures? := some merged }, merged)

/-- A Python exception, as needed by the `GraphBundle` operations.
`runtimeError` is what a bare `raise` with no active exception produces;
`lengthMismatchError` is the spec's posited error class (needed here
only to state that the code does not raise it — nothing in the sources
defines it). -/
inductive PyErr where
  | runtimeError
  | lengthMismatchError
  | keyError (k : String)
deriving DecidableEq, Repr

/-- A Python dict key of a `GraphBundle`: a string, or the non-negative
integers that `add_graphs` auto-assigns. -/
inductive PyKey where
  | str (s : String)
  | int (n : Nat)
deriving DecidableEq, Repr

/-- A value handed to / stored in a `GraphBundle`: a `BrainNetwork`
object (identified abstractly) or a raw adjacency matrix. -/
inductive GVal where
  | network (id : Nat)
  | matrix (m : List (List Int))
deriving DecidableEq, Repr

/-- Embeds `isinstance(graph, BrainNetwork)`. -/
def GVal.isBrainNetwork : GVal → Bool
  | .network _ => true
  | .matrix _ => false

/-- A `GraphBundle` (a `dict` subclass). -/
abbrev GraphBundle := Dict PyKey GVal

/-- Embeds `GraphBundle.add_graphs`: auto-number the names when absent; with a
provided name list of the wrong length the source executes a bare
`raise` (a `RuntimeError`, since no exception is active).  The
conversion loop `for graph in graph_list: if not isinstance(...):
graph = BrainNetwork(graph)` only rebinds the loop variable — its
results (`conv` models the `BrainNetwork(graph)` construction) are
discarded, and `self.update` zips the names with the ORIGINAL
`graph_list`. -/
def add_graphs (conv : GVal → GVal) (self : GraphBundle)
    (graph_list : List GVal) (name_list : Option (List PyKey)) :
    Except PyErr GraphBundle :=
  match name_list with
  | none =>
    let names := (List.range graph_list.length).map
      (fun i => PyKey.int (self.length + i))
    let _converted := graph_list.map
      (fun g => if g.isBrainNetwork then g else conv g)
    .ok (dictUpdate self (dictOfPairs (names.zip graph_list)))
  | some names =>
    if names.length = graph_list.length then
      let _converted := graph_list.map
        (fun g => if g.isBrainNetwork then g else conv g)
      .ok (dictUpdate self (dictOfPairs (names.zip graph_list)))
    else
      .error PyErr.runtimeError

/-- Embeds `GraphBundle.apply`: build the name-keyed result dict by applying
the function to every member in order, propagating the first
exception. -/
def bundle_apply (f : GVal → Except PyErr α) :
    GraphBundle → Except PyErr (Dict PyKey α)
  | [] => .ok []
  | (n, g) :: rest =>
    match f g with
    | .error e => .error e
    | .ok v =>
      match bundle_apply f rest with
      | .error e => .error e
      | .ok d => .ok ((n, v) :: d)

/-- Embeds `GraphBundle.report_small_world`: the source applies
`lambda x: small_coefficient(self['graph_name'], x)` — indexing the
LITERAL string `'graph_name'`, never the `graph_name` parameter (which
is unused).  `small_coefficient` (from `graph_measures`, outside
`classes.py`) is the parameter `sc`; the literal lookup raises
`KeyError('graph_name')` when evaluated without such a key. -/
def report_small_world (sc : GVal → GVal → α) (self : GraphBundle)
    (graph_name : PyKey) : Except PyErr (Dict PyKey α) :=
  bundle_apply
    (fun x =>
      match dLookup self (PyKey.str "graph_name") with
      | some g => .ok (sc g x)
      | none => .error (PyErr.keyError "graph_name"))
    self

/-- Embeds the `while (key + name_scheme + str(q) not in self) and (q > 0)`
search of `GraphBundle.create_random_graphs`, unrolled: starting from
`q`, return the largest index `≤ q` whose derived name is already a key,
else `0`. -/
def findQAux (self : GraphBundle) (key name_scheme : String) : Nat → Nat
  | 0 => 0
  | q + 1 =>
    if (dLookup self (PyKey.str (key ++ name_scheme ++ Nat.repr (q + 1)))).isSome
    then q + 1
    else findQAux self key name_scheme q

/-- The loop of `create_random_graphs` starts at `q = len(self)`. -/
def findQ (self : GraphBundle) (key name_scheme : String) : Nat :=
  findQAux self key name_scheme self.length

/-- The auto-derived name list of `create_random_graphs`:
`[key + name_scheme + str(i) for i in range(q+1, q+1+n)]`. -/
def randomNames (self : GraphBundle) (key : String) (n : Nat)
    (name_scheme : String) : List PyKey :=
  (List.range n).map
    (fun i =>
      PyKey.str (key ++ name_scheme ++
        Nat.repr (findQ self key name_scheme + 1 + i)))

/-- Embeds `GraphBundle.create_random_graphs`: derive names when none are
given, then `add_graphs(get_random_graphs(self[key], n=n), name_list)`.
`get_random_graphs` (from `make_graphs`, outside `classes.py`) is the
parameter `grg`; `self[key]` raises `KeyError` when absent. -/
def create_random_graphs (conv : GVal → GVal) (grg : GVal → Nat → List GVal)
    (self : GraphBundle) (key : String) (n : Nat)
    (name_list : Option (List PyKey)) (name_scheme : String) :
    Except PyErr GraphBundle :=
  let nl := match name_list with
    | some l => l
    | none => randomNames self key n name_scheme
  match dLookup self (PyKey.str key) with
  | none => .error (PyErr.keyError key)
  | some g => add_graphs conv self (grg g n) (some nl)

/-- Model of the `__dict__` of a `BrainNetwork` object, as references into a
heap: `networkx.Graph` keeps its node-attribute store (`_node`), its
adjacency store (`_adj`) and its graph-attribute dict (`graph`) as three
mutable dictionaries. -/
structure NetObj where
  nodeRef : Nat
  adjRef : Nat
  graphRef : Nat
deriving DecidableEq, Repr

/-- The heap holding every graph object's three dictionaries. -/
structure Heap where
  nodeCells : Dict Nat (Dict Node (Dict String Int))
  adjCells : Dict Nat (Dict Node (List Node))
  graphCells : Dict Nat (Dict String Int)
  nextRef : Nat

/-- Embeds `nx.classes.graph.Graph.__init__(self)`: allocate three fresh empty
dictionaries for the new object. -/
def graphInit (h : Heap) : Heap × NetObj :=
  let o : NetObj :=
    { nodeRef := h.nextRef, adjRef := h.nextRef + 1, graphRef := h.nextRef + 2 }
  ({ nodeCells := dUp h.nodeCells o.nodeRef []
     adjCells := dUp h.adjCells o.adjRef []
     graphCells := dUp h.graphCells o.graphRef []
     nextRef := h.nextRef + 3 }, o)

/-- Embeds `BrainNetwork.__init__` on an existing graph: after the base-class
init, `self.__dict__.update(network.__dict__)` makes the new object's
fields the SAME references as the source's — no dictionary is copied. -/
def brainNetworkInitFromNetwork (h : Heap) (network : NetObj) :
    Heap × NetObj :=
  let h1 := (graphInit h).1
  (h1,
   { nodeRef := network.nodeRef, adjRef := network.adjRef,
     graphRef := network.graphRef })

/-- Write `obj.graph[k] = v`: write through the object's graph-dict reference. -/
def setGraphAttrRef (h : Heap) (o : NetObj) (k : String) (v : Int) : Heap :=
  let cell := (dLookup h.graphCells o.graphRef).getD []
  { h with graphCells := dUp h.graphCells o.graphRef (dUp cell k v) }

/-- Read `obj.graph.get(k)`: read through the object's graph-dict reference. -/
def getGraphAttrRef (h : Heap) (o : NetObj) (k : String) : Option Int :=
  dLookup ((dLookup h.graphCells o.graphRef).getD []) k

/-! ### Dictionary lemmas -/

theorem dLookup_dUp_self [DecidableEq α] (d : Dict α β) (k : α) (v : β) :
    dLookup (dUp d k v) k = some v := by
  induction d with
  | nil => simp [dUp, dLookup]
  | cons p d ih =>
    obtain ⟨k', v'⟩ := p
    by_cases h : k' = k
    · subst h
      simp [dUp, dLookup]
    · simp [dUp, h, dLookup, Ne.symm h, ih]

theorem dLookup_dUp_ne [DecidableEq α] (d : Dict α β) (k k' : α) (v : β)
    (h : k' ≠ k) : dLookup (dUp d k v) k' = dLookup d k' := by
  induction d with
  | nil => simp [dUp, dLookup, h]
  | cons p d ih =>
    obtain ⟨k₀, v₀⟩ := p
    by_cases h0 : k₀ = k
    · subst h0
      simp [dUp, dLookup, h]
    · simp only [dUp, if_neg h0, dLookup]
      by_cases h1 : k' = k₀ <;> simp [h1, ih]

theorem dLookup_eq_none_iff [DecidableEq α] (d : Dict α β) (k : α) :
    dLookup d k = none ↔ k ∉ dKeys d := by
  induction d with
  | nil => simp [dLookup, dKeys]
  | cons p d ih =>
    obtain ⟨k', v'⟩ := p
    by_cases h : k = k'
    · subst h
      simp [dLookup, dKeys]
    · simp [dLookup, dKeys, h, ih]

theorem dUp_not_mem [DecidableEq α] (d : Dict α β) (k : α) (v : β)
    (h : k ∉ dKeys d) : dUp d k v = d ++ [(k, v)] := by
  induction d with
  | nil => simp [dUp]
  | cons p d ih =>
    obtain ⟨k', v'⟩ := p
    simp only [dKeys, List.map_cons, List.mem_cons, not_or] at h
    rw [dUp, if_neg (Ne.symm h.1)]
    rw [ih (by simpa [dKeys] using h.2)]
    simp

theorem dictUpdate_nil [DecidableEq α] (d : Dict α β) :
    dictUpdate d [] = d := rfl

theorem dictUpdate_cons [DecidableEq α] (d : Dict α β) (k : α) (v : β)
    (m : Dict α β) :
    dictUpdate d ((k, v) :: m) = dictUpdate (dUp d k v) m := rfl

theorem dLookup_dictUpdate [DecidableEq α] (m : Dict α β)
    (hm : (dKeys m).Nodup) (d : Dict α β) (k : α) :
    dLookup (dictUpdate d m) k = (dLookup m k).or (dLookup d k) := by
  induction m generalizing d with
  | nil => simp [dictUpdate_nil, dLookup, Option.or]
  | cons p m ih =>
    obtain ⟨k₀, v₀⟩ := p
    simp only [dKeys, List.map_cons, List.nodup_cons] at hm
    rw [dictUpdate_cons, ih hm.2]
    by_cases h : k = k₀
    · subst h
      have hnone : dLookup m k = none :=
        (dLookup_eq_none_iff m k).2 (by simpa [dKeys] using hm.1)
      simp [dLookup, hnone, Option.or, dLookup_dUp_self]
    · simp only [dLookup, if_neg h]
      cases hm2 : dLookup m k <;>
        simp [Option.or, dLookup_dUp_ne d k₀ k v₀ h]

theorem dictUpdate_disjoint [DecidableEq α] (m : Dict α β)
    (hm : (dKeys m).Nodup) :
    ∀ d : Dict α β, (∀ k ∈ dKeys m, k ∉ dKeys d) → dictUpdate d m = d ++ m := by
  induction m with
  | nil => intro d _; simp [dictUpdate_nil]
  | cons p m ih =>
    obtain ⟨k₀, v₀⟩ := p
    intro d hd
    simp only [dKeys, List.map_cons, List.nodup_cons] at hm
    have hk₀ : k₀ ∉ dKeys d := hd k₀ (by simp [dKeys])
    have hd2 : ∀ k ∈ dKeys m, k ∉ dKeys (d ++ [(k₀, v₀)]) := by
      intro k hk
      have hkmem : k ∈ dKeys ((k₀, v₀) :: m) := by
        simp only [dKeys, List.map_cons, List.mem_cons]
        right
        simpa [dKeys] using hk
      have h1 : k ∉ dKeys d := hd k hkmem
      have h2 : k ≠ k₀ := by
        intro hkk
        exact hm.1 (hkk ▸ (by simpa [dKeys] using hk))
      have hkeys : dKeys (d ++ [(k₀, v₀)]) = dKeys d ++ [k₀] := by
        simp [dKeys]
      rw [hkeys, List.mem_append]
      push_neg
      exact ⟨h1, by simpa using h2⟩
    rw [dictUpdate_cons, dUp_not_mem d k₀ v₀ hk₀, ih hm.2 (d ++ [(k₀, v₀)]) hd2]
    simp

theorem dictOfPairs_nodup [DecidableEq α] (l : List (α × β))
    (h : (dKeys l).Nodup) : dictOfPairs l = l := by
  have := dictUpdate_disjoint l h [] (by intro k _; simp [dKeys])
  simpa [dictOfPairs] using this

/-! ### BrainNetwork state lemmas -/

@[simp] theorem gNodes_set_node_attributes (G : BrainNet V P) (name : String)
    (vs : Dict Node V) : (set_node_attributes G name vs).gNodes = G.gNodes := rfl

@[simp] theorem partition?_set_node_attributes (G : BrainNet V P)
    (name : String) (vs : Dict Node V) :
    (set_node_attributes G name vs).partition? = G.partition? := rfl

@[simp] theorem centroids_set_node_attributes (G : BrainNet V P)
    (name : String) (vs : Dict Node V) :
    (set_node_attributes G name vs).centroids = G.centroids := rfl

@[simp] theorem global_measures?_set_node_attributes (G : BrainNet V P)
    (name : String) (vs : Dict Node V) :
    (set_node_attributes G name vs).global_measures? = G.global_measures? := rfl

theorem get_set_node_attributes_ne (G : BrainNet V P) (name : String)
    (vs : Dict Node V) (name' : String) (h : name' ≠ name) :
    get_node_attributes (set_node_attributes G name vs) name' =
      get_node_attributes G name' := by
  simp [get_node_attributes, set_node_attributes, dLookup_dUp_ne _ _ _ _ h]

@[simp] theorem gNodes_calc_nodal_measure (G : BrainNet V P) (m : String)
    (f : MeasureFn V P) (force : Bool) :
    (calc_nodal_measure G m f force).gNodes = G.gNodes := by
  unfold calc_nodal_measure
  split <;> simp

@[simp] theorem partition?_calc_nodal_measure (G : BrainNet V P) (m : String)
    (f : MeasureFn V P) (force : Bool) :
    (calc_nodal_measure G m f force).partition? = G.partition? := by
  unfold calc_nodal_measure
  split <;> simp

@[simp] theorem centroids_calc_nodal_measure (G : BrainNet V P) (m : String)
    (f : MeasureFn V P) (force : Bool) :
    (calc_nodal_measure G m f force).centroids = G.centroids := by
  unfold calc_nodal_measure
  split <;> simp

@[simp] theorem global_measures?_calc_nodal_measure (G : BrainNet V P)
    (m : String) (f : MeasureFn V P) (force : Bool) :
    (calc_nodal_measure G m f force).global_measures? = G.global_measures? := by
  unfold calc_nodal_measure
  split <;> simp

theorem get_calc_nodal_measure_ne (G : BrainNet V P) (m : String)
    (f : MeasureFn V P) (force : Bool) (name : String) (h : name ≠ m) :
    get_node_attributes (calc_nodal_measure G m f force) name =
      get_node_attributes G name := by
  unfold calc_nodal_measure
  split
  · exact get_set_node_attributes_ne G m _ name h
  · rfl

@[simp] theorem gNodes_partitionOp (cp : BrainNet V P → Dict Node V × P)
    (G : BrainNet V P) : (partitionOp cp G).gNodes = G.gNodes := by
  unfold partitionOp
  cases G.partition? <;> simp

@[simp] theorem centroids_partitionOp (cp : BrainNet V P → Dict Node V × P)
    (G : BrainNet V P) : (partitionOp cp G).centroids = G.centroids := by
  unfold partitionOp
  cases G.partition? <;> simp

@[simp] theorem global_measures?_partitionOp
    (cp : BrainNet V P → Dict Node V × P) (G : BrainNet V P) :
    (partitionOp cp G).global_measures? = G.global_measures? := by
  unfold partitionOp
  cases G.partition? <;> simp

theorem partition?_isSome_partitionOp (cp : BrainNet V P → Dict Node V × P)
    (G : BrainNet V P) : (partitionOp cp G).partition?.isSome := by
  cases hG : G.partition? with
  | some p => simp [partitionOp, hG]
  | none => simp [partitionOp, hG]

theorem partitionOp_of_isSome (cp : BrainNet V P → Dict Node V × P)
    (G : BrainNet V P) (h : G.partition?.isSome) : partitionOp cp G = G := by
  cases hG : G.partition? with
  | some p => simp [partitionOp, hG]
  | none => rw [hG] at h; simp at h

@[simp] theorem get_node_attributes_update_partition (G : BrainNet V P)
    (x : Option P) (name : String) :
    get_node_attributes { G with partition? := x } name =
      get_node_attributes G name := rfl

theorem get_partitionOp_ne (cp : BrainNet V P → Dict Node V × P)
    (G : BrainNet V P) (name : String) (h : name ≠ "module") :
    get_node_attributes (partitionOp cp G) name = get_node_attributes G name := by
  cases hG : G.partition? with
  | some p => simp [partitionOp, hG]
  | none =>
    simp only [partitionOp, hG, get_node_attributes_update_partition]
    exact get_set_node_attributes_ne G "module" _ name h

theorem nodalFold_nil (force : Bool) (G : BrainNet V P) :
    nodalFold [] force G = G := rfl

theorem nodalFold_cons (n : String) (f : MeasureFn V P)
    (d : Dict String (MeasureFn V P)) (force : Bool) (G : BrainNet V P) :
    nodalFold ((n, f) :: d) force G =
      nodalFold d force (calc_nodal_measure G n f force) := rfl

theorem nodalFold_append (d₁ d₂ : Dict String (MeasureFn V P)) (force : Bool)
    (G : BrainNet V P) :
    nodalFold (d₁ ++ d₂) force G = nodalFold d₂ force (nodalFold d₁ force G) := by
  simp [nodalFold, List.foldl_append]

@[simp] theorem gNodes_nodalFold (d : Dict String (MeasureFn V P))
    (force : Bool) (G : BrainNet V P) :
    (nodalFold d force G).gNodes = G.gNodes := by
  induction d generalizing G with
  | nil => rfl
  | cons p d ih =>
    obtain ⟨n, f⟩ := p
    rw [nodalFold_cons, ih]
    simp

@[simp] theorem centroids_nodalFold (d : Dict String (MeasureFn V P))
    (force : Bool) (G : BrainNet V P) :
    (nodalFold d force G).centroids = G.centroids := by
  induction d generalizing G with
  | nil => rfl
  | cons p d ih =>
    obtain ⟨n, f⟩ := p
    rw [nodalFold_cons, ih]
    simp

@[simp] theorem partition?_nodalFold (d : Dict String (MeasureFn V P))
    (force : Bool) (G : BrainNet V P) :
    (nodalFold d force G).partition? = G.partition? := by
  induction d generalizing G with
  | nil => rfl
  | cons p d ih =>
    obtain ⟨n, f⟩ := p
    rw [nodalFold_cons, ih]
    simp

theorem get_nodalFold_not_mem (d : Dict String (MeasureFn V P)) (force : Bool)
    (G : BrainNet V P) (name : String) (h : name ∉ dKeys d) :
    get_node_attributes (nodalFold d force G) name = get_node_attributes G name := by
  induction d generalizing G with
  | nil => rfl
  | cons p d ih =>
    obtain ⟨n, f⟩ := p
    simp only [dKeys, List.map_cons, List.mem_cons, not_or] at h
    rw [nodalFold_cons, ih _ h.2]
    exact get_calc_nodal_measure_ne G n f force name h.1

theorem get_nodalFold_nonempty (d : Dict String (MeasureFn V P))
    (G : BrainNet V P) (name : String)
    (h : (get_node_attributes G name).isEmpty = false) :
    get_node_attributes (nodalFold d false G) name = get_node_attributes G name := by
  induction d generalizing G with
  | nil => rfl
  | cons p d ih =>
    obtain ⟨n, f⟩ := p
    rw [nodalFold_cons]
    by_cases hn : n = name
    · subst hn
      have hskip : calc_nodal_measure G n f false = G := by
        unfold calc_nodal_measure
        simp [h]
      rw [hskip, ih G h]
    · have hpres := get_calc_nodal_measure_ne G n f false name (Ne.symm hn)
      rw [ih _ (by rw [hpres]; exact h), hpres]

/-! ### Characterization of the per-measure loop -/

theorem calculate_nodal_measures_default (lib : NxLib V P)
    (cp : BrainNet V P → Dict Node V × P)
    (aD aI : BrainNet V P → BrainNet V P) (G : BrainNet V P) (force : Bool)
    (h : G.centroids = false) :
    calculate_nodal_measures lib cp aD aI G force none none =
      nodalFold (nodal_measure_dict lib) force (partitionOp cp G) := by
  unfold calculate_nodal_measures
  simp [h]

theorem nodup_get_not_mem_take {α : Type} (l : List α) (h : l.Nodup) (k : Nat)
    (hk : k < l.length) : l.get ⟨k, hk⟩ ∉ l.take k := by
  intro hmem
  have hsplit : (l.take k ++ l.drop k).Nodup := by
    rw [List.take_append_drop]
    exact h
  have hdrop : l.get ⟨k, hk⟩ ∈ l.drop k := by
    rw [List.drop_eq_get_cons hk]
    exact List.mem_cons_self _ _
  exact (List.nodup_append.mp hsplit).2.2 hmem hdrop

theorem nodup_get_not_mem_drop {α : Type} (l : List α) (h : l.Nodup) (k : Nat)
    (hk : k < l.length) : l.get ⟨k, hk⟩ ∉ l.drop (k + 1) := by
  have hsub : (l.drop k).Nodup := List.Nodup.sublist (List.drop_sublist k l) h
  rw [List.drop_eq_get_cons hk] at hsub
  exact (List.nodup_cons.mp hsub).1

theorem fst_get_eq_dKeys_get (d : Dict α β) (k : Nat) (hk : k < d.length) :
    (d.get ⟨k, hk⟩).1 = (dKeys d).get ⟨k, by simpa [dKeys] using hk⟩ := by
  simp [dKeys, List.get_map]

theorem dKeys_take (d : Dict α β) (k : Nat) :
    dKeys (d.take k) = (dKeys d).take k := by
  simp [dKeys]

theorem dKeys_drop (d : Dict α β) (k : Nat) :
    dKeys (d.drop k) = (dKeys d).drop k := by
  simp [dKeys]

/-- The attribute finally stored under the `k`-th registry name is
exactly what the `k`-th step of the loop produced: later iterations
leave it alone (registry keys are distinct). -/
theorem get_nodalFold_split (d : Dict String (MeasureFn V P)) (force : Bool)
    (G : BrainNet V P) (k : Nat) (hk : k < d.length)
    (hnd : (dKeys d).Nodup) :
    get_node_attributes (nodalFold d force G) (d.get ⟨k, hk⟩).1 =
      get_node_attributes
        (calc_nodal_measure (nodalFold (d.take k) force G)
          (d.get ⟨k, hk⟩).1 (d.get ⟨k, hk⟩).2 force)
        (d.get ⟨k, hk⟩).1 := by
  have hkk : k < (dKeys d).length := by simpa [dKeys] using hk
  have hnotmem : (d.get ⟨k, hk⟩).1 ∉ dKeys (d.drop (k + 1)) := by
    rw [dKeys_drop, fst_get_eq_dKeys_get]
    exact nodup_get_not_mem_drop (dKeys d) hnd k hkk
  have hd : d.take k ++ d.get ⟨k, hk⟩ :: d.drop (k + 1) = d := by
    have h0 := List.take_append_drop k d
    rw [List.drop_eq_get_cons hk] at h0
    exact h0
  conv_lhs =>
    rw [show nodalFold d force G =
        nodalFold (d.take k ++ d.get ⟨k, hk⟩ :: d.drop (k + 1)) force G from by
      rw [hd]]
  rw [nodalFold_append]
  rw [show nodalFold (d.get ⟨k, hk⟩ :: d.drop (k + 1)) force
        (nodalFold (d.take k) force G) =
      nodalFold (d.drop (k + 1)) force
        (calc_nodal_measure (nodalFold (d.take k) force G)
          (d.get ⟨k, hk⟩).1 (d.get ⟨k, hk⟩).2 force) from rfl]
  exact get_nodalFold_not_mem _ force _ _ hnotmem

/-- The guard state the `k`-th step sees agrees with the original graph
on the `k`-th registry name: earlier iterations touch only other names
and `partition` touches only `module`. -/
theorem get_nodalFold_take (d : Dict String (MeasureFn V P)) (force : Bool)
    (G : BrainNet V P) (k : Nat) (hk : k < d.length)
    (hnd : (dKeys d).Nodup) :
    get_node_attributes (nodalFold (d.take k) force G) (d.get ⟨k, hk⟩).1 =
      get_node_attributes G (d.get ⟨k, hk⟩).1 := by
  have hkk : k < (dKeys d).length := by simpa [dKeys] using hk
  have hnotmem : (d.get ⟨k, hk⟩).1 ∉ dKeys (d.take k) := by
    rw [dKeys_take, fst_get_eq_dKeys_get]
    exact nodup_get_not_mem_take (dKeys d) hnd k hkk
  exact get_nodalFold_not_mem _ force _ _ hnotmem

/-- The property claim C1 asserts of `calculate_nodal_measures` at one
graph and `force` flag.  First part, for every index `k` of the default
registry: the state the `k`-th iteration sees carries exactly the input
graph's values of the `k`-th registry name (so its guard tests presence
in the input graph), and the attribute finally stored under that name is
exactly what the guarded `k`-th step `calc_nodal_measure` produces —
i.e. the measure is computed and stored precisely when no node carries
the attribute yet, or `force` is set, and is left untouched otherwise.
Second part: a second `force=false` call preserves every per-node value
present after the first call. -/
def nodalClaimProp (lib : NxLib V P) (cp : BrainNet V P → Dict Node V × P)
    (aD aI : BrainNet V P → BrainNet V P) (G : BrainNet V P)
    (force : Bool) : Prop :=
  (∀ k (hk : k < (nodal_measure_dict lib).length),
    get_node_attributes
        (nodalFold ((nodal_measure_dict lib).take k) force (partitionOp cp G))
        ((nodal_measure_dict lib).get ⟨k, hk⟩).1 =
      get_node_attributes G ((nodal_measure_dict lib).get ⟨k, hk⟩).1 ∧
    get_node_attributes
        (calculate_nodal_measures lib cp aD aI G force none none)
        ((nodal_measure_dict lib).get ⟨k, hk⟩).1 =
      get_node_attributes
        (calc_nodal_measure
          (nodalFold ((nodal_measure_dict lib).take k) force
            (partitionOp cp G))
          ((nodal_measure_dict lib).get ⟨k, hk⟩).1
          ((nodal_measure_dict lib).get ⟨k, hk⟩).2 force)
        ((nodal_measure_dict lib).get ⟨k, hk⟩).1) ∧
  (∀ name nd v,
    dLookup (get_node_attributes
      (calculate_nodal_measures lib cp aD aI G false none none) name) nd
        = some v →
    dLookup (get_node_attributes
      (calculate_nodal_measures lib cp aD aI
        (calculate_nodal_measures lib cp aD aI G false none none)
        false none none) name) nd = some v)

theorem nodal_measure_dict_keys_nodup (lib : NxLib V P) :
    (dKeys (nodal_measure_dict lib)).Nodup := by
  simp only [nodal_measure_dict, dKeys, List.map_cons, List.map_nil]
  decide

theorem nodal_measure_dict_keys_ne_module (lib : NxLib V P) (k : Nat)
    (hk : k < (nodal_measure_dict lib).length) :
    ((nodal_measure_dict lib).get ⟨k, hk⟩).1 ≠ "module" := by
  have hmem : ((nodal_measure_dict lib).get ⟨k, hk⟩).1
      ∈ dKeys (nodal_measure_dict lib) := by
    rw [fst_get_eq_dKeys_get]
    exact List.get_mem _ _ _
  revert hmem
  simp only [nodal_measure_dict, dKeys, List.map_cons, List.map_nil,
    List.mem_cons, List.not_mem_nil, or_false]
  rintro (h | h | h | h | h | h) <;> rw [h] <;> decide

/-- C1. For every graph without centroid data and every measure name
in the default registry, `calculate_nodal_measures(force)` computes and
stores the measure's per-node values exactly when the node attribute of
that name is not already present for any node of the input graph (the
guard `not nx.get_node_attributes(...)`), and always when `force=True`;
otherwise the attribute is left byte-for-byte unchanged.  Consequently a
second `force=False` call leaves every previously computed per-node
attribute value unchanged.  (Formal statement: `nodalClaimProp`.) -/
theorem C1_calculate_nodal_measures_guarded_idempotent (lib : NxLib V P)
    (cp : BrainNet V P → Dict Node V × P)
    (aD aI : BrainNet V P → BrainNet V P) (G : BrainNet V P) (force : Bool)
    (h : G.centroids = false) : nodalClaimProp lib cp aD aI G force := by
  have hnd := nodal_measure_dict_keys_nodup lib
  constructor
  · intro k hk
    constructor
    · exact (get_nodalFold_take _ force _ k hk hnd).trans
        (get_partitionOp_ne cp G _ (nodal_measure_dict_keys_ne_module lib k hk))
    · rw [calculate_nodal_measures_default lib cp aD aI G force h]
      exact get_nodalFold_split _ force _ k hk hnd
  · intro name nd v hv
    have hdef := calculate_nodal_measures_default lib cp aD aI G false h
    have hR1c :
        (calculate_nodal_measures lib cp aD aI G false none none).centroids
          = false := by
      rw [hdef]
      simp [h]
    have hR1p :
        (calculate_nodal_measures lib cp aD aI G false none none).partition?.isSome := by
      rw [hdef]
      rw [partition?_nodalFold]
      exact partition?_isSome_partitionOp cp G
    rw [calculate_nodal_measures_default lib cp aD aI _ false hR1c,
      partitionOp_of_isSome _ _ hR1p]
    have hne : (get_node_attributes
        (calculate_nodal_measures lib cp aD aI G false none none) name).isEmpty
          = false := by
      cases hE : get_node_attributes
          (calculate_nodal_measures lib cp aD aI G false none none) name with
      | nil => rw [hE] at hv; simp [dLookup] at hv
      | cons a l => simp
    rw [get_nodalFold_nonempty _ _ _ hne]
    exact hv

/-- A concrete instantiation of the external measure functions, used by
the claim witnesses (`V := Int`, `P := Unit`). -/
def libEx : NxLib Int Unit :=
  { degree := fun g => g.gNodes.map (fun n => (n, (10 : Int)))
    closeness_centrality := fun g => g.gNodes.map (fun n => (n, (11 : Int)))
    betweenness_centrality := fun g => g.gNodes.map (fun n => (n, (12 : Int)))
    clustering := fun g => g.gNodes.map (fun n => (n, (13 : Int)))
    participation_coefficient :=
      fun g _ => g.gNodes.map (fun n => (n, (14 : Int))) }

/-- A concrete community-detection collaborator for the witnesses. -/
def cpEx : BrainNet Int Unit → Dict Node Int × Unit :=
  fun g => (g.gNodes.map (fun n => (n, (0 : Int))), ())

/-- A concrete two-node graph with no attributes and no centroid data. -/
def GEx : BrainNet Int Unit :=
  { gNodes := [0, 1], nAttrs := [], partition? := none,
    global_measures? := none, centroids := false }

/-- Witness for C1 at the concrete graph `GEx`. -/
theorem C1_calculate_nodal_measures_guarded_idempotent_witness :
    GEx.centroids = false ∧ nodalClaimProp libEx cpEx id id GEx false :=
  ⟨rfl, C1_calculate_nodal_measures_guarded_idempotent libEx cpEx id id GEx
    false rfl⟩

/-! ### Global-measure cache lemmas -/

/-- The fold performed by `calculate_global_measures_ext` on an existing
cache, with the per-measure computation abstracted to `f`. -/
def extFold (f : String → V) (suite : List String) (e : Dict String V) :
    Dict String V :=
  suite.foldl
    (fun acc s => if (dLookup acc s).isSome then acc else dUp acc s (f s)) e

theorem calculate_global_measures_ext_some (suite : List String)
    (compute : String → BrainNet V P → Dict Node (Option V) → V)
    (G : BrainNet V P) (partition : Dict Node (Option V))
    (e : Dict String V) :
    calculate_global_measures_ext suite compute G partition (some e) =
      extFold (fun s => compute s G partition) suite e := rfl

theorem extFold_cons (f : String → V) (s : String) (rest : List String)
    (e : Dict String V) :
    extFold f (s :: rest) e =
      extFold f rest (if (dLookup e s).isSome then e else dUp e s (f s)) := rfl

theorem extFold_preserves (f : String → V) (suite : List String) :
    ∀ (e : Dict String V) (k : String) (v : V), dLookup e k = some v →
      dLookup (extFold f suite e) k = some v := by
  induction suite with
  | nil => intro e k v h; exact h
  | cons s rest ih =>
    intro e k v h
    rw [extFold_cons]
    by_cases hs : (dLookup e s).isSome
    · rw [if_pos hs]
      exact ih e k v h
    · rw [if_neg hs]
      have hks : k ≠ s := by
        intro hk
        apply hs
        rw [← hk, h]
        rfl
      exact ih _ k v (by rw [dLookup_dUp_ne e s k (f s) hks]; exact h)

theorem extFold_mono (f : String → V) (suite : List String)
    (e : Dict String V) (k : String) (h : (dLookup e k).isSome) :
    (dLookup (extFold f suite e) k).isSome := by
  obtain ⟨v, hv⟩ := Option.isSome_iff_exists.mp h
  rw [extFold_preserves f suite e k v hv]
  rfl

theorem extFold_isSome_of_mem (f : String → V) (suite : List String) :
    ∀ (e : Dict String V) (k : String), k ∈ suite →
      (dLookup (extFold f suite e) k).isSome := by
  induction suite with
  | nil => intro e k h; exact absurd h (List.not_mem_nil k)
  | cons s rest ih =>
    intro e k h
    rw [extFold_cons]
    rcases List.mem_cons.mp h with hk | hk
    · subst hk
      by_cases hs : (dLookup e k).isSome
      · rw [if_pos hs]
        exact extFold_mono f rest e k hs
      · rw [if_neg hs]
        exact extFold_mono f rest _ k (by rw [dLookup_dUp_self]; rfl)
    · by_cases hs : (dLookup e s).isSome
      · rw [if_pos hs]
        exact ih _ k hk
      · rw [if_neg hs]
        exact ih _ k hk

theorem extFold_isSome_inv (f : String → V) (suite : List String) :
    ∀ (e : Dict String V) (k : String),
      (dLookup (extFold f suite e) k).isSome →
        (dLookup e k).isSome ∨ k ∈ suite := by
  induction suite with
  | nil => intro e k h; exact .inl h
  | cons s rest ih =>
    intro e k h
    rw [extFold_cons] at h
    rcases ih _ k h with h1 | h1
    · by_cases hs : (dLookup e s).isSome
      · rw [if_pos hs] at h1
        exact .inl h1
      · rw [if_neg hs] at h1
        by_cases hks : k = s
        · exact .inr (by rw [hks]; exact List.mem_cons_self s rest)
        · rw [dLookup_dUp_ne e s k (f s) hks] at h1
          exact .inl h1
    · exact .inr (List.mem_cons_of_mem s h1)

theorem dKeys_dUp_mem [DecidableEq α] (d : Dict α β) (k : α) (v : β)
    (h : k ∈ dKeys d) : dKeys (dUp d k v) = dKeys d := by
  induction d with
  | nil => simp [dKeys] at h
  | cons p d ih =>
    obtain ⟨k₀, v₀⟩ := p
    by_cases h0 : k₀ = k
    · subst h0
      simp [dUp, dKeys]
    · have h' : k ∈ k₀ :: dKeys d := by
        simpa only [dKeys, List.map_cons] using h
      have hmem : k ∈ dKeys d := by
        rcases List.mem_cons.mp h' with h1 | h1
        · exact absurd h1.symm h0
        · exact h1
      simp only [dUp, if_neg h0, dKeys, List.map_cons]
      rw [show List.map Prod.fst (dUp d k v) = List.map Prod.fst d
        from ih hmem]

theorem nodup_dUp [DecidableEq α] (d : Dict α β) (k : α) (v : β)
    (h : (dKeys d).Nodup) : (dKeys (dUp d k v)).Nodup := by
  by_cases hm : k ∈ dKeys d
  · rw [dKeys_dUp_mem d k v hm]
    exact h
  · rw [dUp_not_mem d k v hm]
    have : dKeys (d ++ [(k, v)]) = dKeys d ++ [k] := by simp [dKeys]
    rw [this]
    simp [List.nodup_append, h, hm]

theorem extFold_nodup (f : String → V) (suite : List String) :
    ∀ e : Dict String V, (dKeys e).Nodup →
      (dKeys (extFold f suite e)).Nodup := by
  induction suite with
  | nil => intro e h; exact h
  | cons s rest ih =>
    intro e h
    rw [extFold_cons]
    by_cases hs : (dLookup e s).isSome
    · rw [if_pos hs]
      exact ih e h
    · rw [if_neg hs]
      exact ih _ (nodup_dUp e s (f s) h)

theorem mem_dKeys_of_isSome [DecidableEq α] (d : Dict α β) (k : α)
    (h : (dLookup d k).isSome) : k ∈ dKeys d := by
  by_contra hk
  rw [(dLookup_eq_none_iff d k).mpr hk] at h
  exact Bool.noConfusion h

/-- The property claim C2 asserts of `calculate_global_measures` on a
graph whose cache is `cache`: with `force=False` the returned (and
stored) mapping preserves every previously cached value, holds a value
for every suite measure, and holds nothing outside the union of the old
keys and the suite; with `force=True` it is the freshly recomputed full
suite, discarding the old cache. -/
def globalClaimProp (suite : List String)
    (compute : String → BrainNet V P → Dict Node (Option V) → V)
    (G : BrainNet V P) (cache : Dict String V) (seed : Option Nat) : Prop :=
  ((calculate_global_measures suite compute G false seed).1.global_measures?
      = some (calculate_global_measures suite compute G false seed).2) ∧
  (∀ k v, dLookup cache k = some v →
    dLookup (calculate_global_measures suite compute G false seed).2 k
      = some v) ∧
  (∀ s ∈ suite,
    (dLookup (calculate_global_measures suite compute G false seed).2 s).isSome
      = true) ∧
  (∀ k,
    (dLookup (calculate_global_measures suite compute G false seed).2 k).isSome
      = true → k ∈ dKeys cache ∨ k ∈ suite) ∧
  ((calculate_global_measures suite compute G true seed).2
      = suite.map (fun s => (s, compute s G (modulePartition G))))

/-- C2. When a `global_measures` cache exists,
`calculate_global_measures(force=False)` merges: every cached value is
preserved and only measures not already present are added (the result's
keys are the union of the old keys and the suite); with `force=True` the
cache is wholly recomputed, overwriting prior values.  The external
suite computation (`graph_measures.calculate_global_measures`, not among
the sources) is modelled from the spec as
`calculate_global_measures_ext`. -/
theorem C2_calculate_global_measures_union (suite : List String)
    (compute : String → BrainNet V P → Dict Node (Option V) → V)
    (G : BrainNet V P) (cache : Dict String V) (seed : Option Nat)
    (hc : G.global_measures? = some cache)
    (hnd : (dKeys cache).Nodup) :
    globalClaimProp suite compute G cache seed := by
  have hfalse2 :
      (calculate_global_measures suite compute G false seed).2 =
        dictUpdate cache
          (extFold (fun s => compute s G (modulePartition G)) suite cache) := by
    unfold calculate_global_measures
    rw [hc]
    rfl
  have hfalse1 :
      (calculate_global_measures suite compute G false seed).1.global_measures?
        = some (calculate_global_measures suite compute G false seed).2 := by
    unfold calculate_global_measures
    rw [hc]
    rfl
  have hgmnd : (dKeys
      (extFold (fun s => compute s G (modulePartition G)) suite cache)).Nodup :=
    extFold_nodup _ suite cache hnd
  refine ⟨hfalse1, ?_, ?_, ?_, ?_⟩
  · intro k v hv
    rw [hfalse2]
    rw [dLookup_dictUpdate _ hgmnd cache k,
      extFold_preserves _ suite cache k v hv]
    rfl
  · intro s hs
    rw [hfalse2]
    rw [dLookup_dictUpdate _ hgmnd cache s]
    obtain ⟨v, hv⟩ := Option.isSome_iff_exists.mp
      (extFold_isSome_of_mem (fun s => compute s G (modulePartition G))
        suite cache s hs)
    rw [hv]
    rfl
  · intro k hk
    rw [hfalse2] at hk
    replace hk : ((dLookup
        (extFold (fun s => compute s G (modulePartition G)) suite cache) k).or
        (dLookup cache k)).isSome = true := by
      rw [← dLookup_dictUpdate _ hgmnd cache k]
      exact hk
    cases hgm : dLookup
        (extFold (fun s => compute s G (modulePartition G)) suite cache) k with
    | some v =>
      rcases extFold_isSome_inv _ suite cache k (by rw [hgm]; rfl) with h1 | h1
      · exact .inl (mem_dKeys_of_isSome cache k h1)
      · exact .inr h1
    | none =>
      rw [hgm] at hk
      simp only [Option.or] at hk
      exact .inl (mem_dKeys_of_isSome cache k hk)
  · unfold calculate_global_measures
    rw [hc]
    rfl

/-- A concrete per-measure computation for the C2 witness. -/
def computeEx : String → BrainNet Int Unit → Dict Node (Option Int) → Int :=
  fun _ _ _ => 42

/-- A concrete graph whose `global_measures` cache already holds one
entry. -/
def GEx2 : BrainNet Int Unit :=
  { gNodes := [0, 1], nAttrs := [], partition? := none,
    global_measures? := some [("modularity", 7)], centroids := false }

/-- Witness for C2 at `GEx2` with suite
`[global_efficiency, average_clustering]`. -/
theorem C2_calculate_global_measures_union_witness :
    GEx2.global_measures? = some [("modularity", 7)] ∧
    (dKeys [(("modularity" : String), (7 : Int))]).Nodup ∧
    globalClaimProp ["global_efficiency", "average_clustering"] computeEx
      GEx2 [("modularity", 7)] none :=
  ⟨rfl, by decide,
    C2_calculate_global_measures_union
      ["global_efficiency", "average_clustering"] computeEx GEx2
      [("modularity", 7)] none rfl (by decide)⟩

/-- C3 (code bug). The `seed` parameter of
`BrainNetwork.calculate_global_measures` is dead: the method's result is
the same for every seed (it is never forwarded to the measure
computation), so the seed cannot control any randomized
sub-computation. -/
theorem C3_calculate_global_measures_seed_ignored (suite : List String)
    (compute : String → BrainNet V P → Dict Node (Option V) → V)
    (G : BrainNet V P) (force : Bool) (seed₁ seed₂ : Option Nat) :
    calculate_global_measures suite compute G force seed₁ =
      calculate_global_measures suite compute G force seed₂ := rfl

/-- C4 (code bug). `BrainNetwork.threshold` ignores its `mst`
argument: it always calls `threshold_graph` with `mst=True`, so passing
`mst=False` yields exactly the `mst=True` result — the caller's
preserve-connectivity choice is never forwarded. -/
theorem C4_threshold_mst_hardcoded {V P C : Type}
    (threshold_graph : BrainNet V P → C → Bool → BrainNet V P)
    (G : BrainNet V P) (cost : C) (mst : Bool) :
    threshold threshold_graph G cost mst = threshold_graph G cost true ∧
    threshold threshold_graph G cost false =
      threshold threshold_graph G cost true :=
  ⟨rfl, rfl⟩

/-- C5 (code bug). In the default registry the
`shortest_path_length` key is wired to `nx.betweenness_centrality` — the
very same function as the `betweenness` key — so the two entries are one
function and the stored values coincide on every graph (they are never
different). -/
theorem C5_shortest_path_length_is_betweenness (lib : NxLib V P) :
    dLookup (nodal_measure_dict lib) "shortest_path_length" =
      some lib.betweenness_centrality ∧
    dLookup (nodal_measure_dict lib) "shortest_path_length" =
      dLookup (nodal_measure_dict lib) "betweenness" ∧
    ∀ G : BrainNet V P,
      (dLookup (nodal_measure_dict lib) "shortest_path_length").map
          (fun f => f G) =
        (dLookup (nodal_measure_dict lib) "betweenness").map
          (fun f => f G) := by
  have h2 : dLookup (nodal_measure_dict lib) "shortest_path_length" =
      dLookup (nodal_measure_dict lib) "betweenness" := by
    simp [nodal_measure_dict, dLookup]
  exact ⟨by simp [nodal_measure_dict, dLookup], h2, fun G => by rw [h2]⟩

/-- C6 (code bug). Constructing a `BrainNetwork` from an existing
network does not deep-copy: `self.__dict__.update(network.__dict__)`
leaves the new object holding the very same node / adjacency /
graph-attribute dictionary references as the source, so a graph-attribute
write through the copy is immediately visible through the source. -/
theorem C6_init_from_network_shares_state (h : Heap) (src : NetObj)
    (k : String) (v : Int) :
    (brainNetworkInitFromNetwork h src).2.nodeRef = src.nodeRef ∧
    (brainNetworkInitFromNetwork h src).2.adjRef = src.adjRef ∧
    (brainNetworkInitFromNetwork h src).2.graphRef = src.graphRef ∧
    getGraphAttrRef
      (setGraphAttrRef (brainNetworkInitFromNetwork h src).1
        (brainNetworkInitFromNetwork h src).2 k v)
      src k = some v := by
  refine ⟨rfl, rfl, rfl, ?_⟩
  unfold getGraphAttrRef setGraphAttrRef brainNetworkInitFromNetwork
  simp [dLookup_dUp_self]

/-- A raw (non-Network) adjacency-matrix input, for C7. -/
def MEx : List (List Int) := [[0, 1], [1, 0]]

/-- C7 (code bug). `GraphBundle.add_graphs` discards its converted
graphs: the loop rebinds only the loop variable, and the collection is
updated with the original inputs — so a raw matrix input is stored
as-is, not as a `BrainNetwork`, whatever the conversion does. -/
theorem C7_add_graphs_stores_raw_input :
    ∀ conv : GVal → GVal,
      add_graphs conv [] [GVal.matrix MEx] (some [PyKey.str "m"]) =
        .ok [(PyKey.str "m", GVal.matrix MEx)] ∧
      (GVal.matrix MEx).isBrainNetwork = false :=
  fun conv => ⟨rfl, rfl⟩

/-- A concrete small-coefficient collaborator for C9. -/
def smallCoefEx : GVal → GVal → Int := fun _ _ => 0

/-- A two-member bundle without a key named `graph_name`, for C9. -/
def bundleEx9 : GraphBundle :=
  [(PyKey.str "a", GVal.network 0), (PyKey.str "b", GVal.network 1)]

/-- C9 (code bug). `GraphBundle.report_small_world` never uses its
`graph_name` parameter — its result is identical for every argument —
because the lambda indexes the literal key `'graph_name'`; on a bundle
without such a key the call raises `KeyError('graph_name')` instead of
comparing against the member actually named by the argument. -/
theorem C9_report_small_world_ignores_parameter :
    (∀ (α : Type) (sc : GVal → GVal → α) (self : GraphBundle) (r r' : PyKey),
      report_small_world sc self r = report_small_world sc self r') ∧
    report_small_world smallCoefEx bundleEx9 (PyKey.str "a") =
      .error (PyErr.keyError "graph_name") :=
  ⟨fun _ _ _ _ _ => rfl, rfl⟩

/-! ### Zip / append dictionary lemmas for the collection claims -/

theorem dLookup_append [DecidableEq α] (d₁ d₂ : Dict α β) (k : α) :
    dLookup (d₁ ++ d₂) k = (dLookup d₁ k).or (dLookup d₂ k) := by
  induction d₁ with
  | nil => simp [dLookup, Option.or]
  | cons p d ih =>
    obtain ⟨k₀, v₀⟩ := p
    by_cases h : k = k₀
    · subst h
      simp [dLookup, Option.or]
    · simp [dLookup, h, ih]

theorem dLookup_zip_get [DecidableEq α] :
    ∀ (names : List α) (xs : List β), names.Nodup →
      ∀ i (hi : i < names.length) (hx : i < xs.length),
        dLookup (names.zip xs) (names.get ⟨i, hi⟩) = some (xs.get ⟨i, hx⟩) := by
  intro names
  induction names with
  | nil => intro xs _ i hi; simp at hi
  | cons n ns ih =>
    intro xs hnd i hi hx
    cases xs with
    | nil => simp at hx
    | cons x xs =>
      have hnd' := List.nodup_cons.mp hnd
      cases i with
      | zero => simp [List.zip_cons_cons, dLookup]
      | succ j =>
        have hj : j < ns.length := by
          simpa using Nat.lt_of_succ_lt_succ hi
        have hjx : j < xs.length := by
          simpa using Nat.lt_of_succ_lt_succ hx
        have hne : ns.get ⟨j, hj⟩ ≠ n := by
          intro hcontra
          exact hnd'.1 (hcontra ▸ List.get_mem ns j hj)
        show dLookup ((n, x) :: ns.zip xs) (ns.get ⟨j, hj⟩) = some (xs.get ⟨j, hjx⟩)
        rw [show dLookup ((n, x) :: ns.zip xs) (ns.get ⟨j, hj⟩) =
            if ns.get ⟨j, hj⟩ = n then some x else dLookup (ns.zip xs) (ns.get ⟨j, hj⟩)
          from rfl, if_neg hne]
        exact ih xs hnd'.2 j hj hjx

theorem dKeys_zip [DecidableEq α] (names : List α) (xs : List β)
    (h : names.length ≤ xs.length) : dKeys (names.zip xs) = names :=
  List.map_fst_zip names xs h

/-- C8 counterexample. As stated the claim fails twice over: a
mismatched name list triggers the source's bare `raise`, which surfaces
as a `RuntimeError`, not a `LengthMismatchError` (no such class exists
in the sources); and with matching lengths but a duplicated name the
collection grows by 1, not by `len(graphs) = 2`. -/
theorem C8_add_graphs_counterexample :
    (add_graphs id [] [GVal.network 0]
        (some [PyKey.str "a", PyKey.str "b"]) =
      .error PyErr.runtimeError ∧
      PyErr.runtimeError ≠ PyErr.lengthMismatchError) ∧
    ((add_graphs id [] [GVal.network 0, GVal.network 1]
        (some [PyKey.str "a", PyKey.str "a"])).map List.length = .ok 1 ∧
      (1 : Nat) ≠ 2) :=
  ⟨⟨rfl, by decide⟩, ⟨rfl, by decide⟩⟩

/-- The amended claim C8: a mismatched name list makes `add_graphs`
raise (a bare `raise`, i.e. `RuntimeError`) with the collection
unchanged; with matching lengths and names that are pairwise distinct
and not yet present, the collection is extended in place, its size grows
by exactly the number of graphs, and each name retrieves the graph it
was zipped with. -/
def addGraphsClaimProp (conv : GVal → GVal) (self : GraphBundle)
    (graph_list : List GVal) (names : List PyKey) : Prop :=
  (names.length ≠ graph_list.length →
    add_graphs conv self graph_list (some names) =
      .error PyErr.runtimeError) ∧
  (names.length = graph_list.length → names.Nodup →
    (∀ k ∈ names, dLookup self k = none) →
    add_graphs conv self graph_list (some names) =
      .ok (self ++ names.zip graph_list) ∧
    (self ++ names.zip graph_list).length =
      self.length + graph_list.length ∧
    ∀ i (hi : i < names.length) (hx : i < graph_list.length),
      dLookup (self ++ names.zip graph_list) (names.get ⟨i, hi⟩) =
        some (graph_list.get ⟨i, hx⟩))

theorem add_graphs_some (conv : GVal → GVal) (self : GraphBundle)
    (graph_list : List GVal) (names : List PyKey) :
    add_graphs conv self graph_list (some names) =
      if names.length = graph_list.length then
        Except.ok (dictUpdate self (dictOfPairs (names.zip graph_list)))
      else Except.error PyErr.runtimeError := rfl

/-- C8 (amended). Proof of the amended claim. -/
theorem C8_add_graphs_amended (conv : GVal → GVal) (self : GraphBundle)
    (graph_list : List GVal) (names : List PyKey) :
    addGraphsClaimProp conv self graph_list names := by
  constructor
  · intro h
    rw [add_graphs_some, if_neg h]
  · intro hlen hnd hfresh
    have hkeys : dKeys (names.zip graph_list) = names :=
      dKeys_zip names graph_list (le_of_eq hlen)
    have hznd : (dKeys (names.zip graph_list)).Nodup := by
      rw [hkeys]
      exact hnd
    have hdisj : ∀ k ∈ dKeys (names.zip graph_list), k ∉ dKeys self := by
      intro k hk
      rw [hkeys] at hk
      exact (dLookup_eq_none_iff self k).mp (hfresh k hk)
    have hupd : dictUpdate self (dictOfPairs (names.zip graph_list)) =
        self ++ names.zip graph_list := by
      rw [dictOfPairs_nodup _ hznd]
      exact dictUpdate_disjoint _ hznd self hdisj
    refine ⟨?_, ?_, ?_⟩
    · rw [add_graphs_some, if_pos hlen, hupd]
    · rw [List.length_append, List.length_zip, hlen, Nat.min_self]
    · intro i hi hx
      have hnotself : names.get ⟨i, hi⟩ ∉ dKeys self := by
        intro hmem
        exact (dLookup_eq_none_iff self _).mp
          (hfresh _ (List.get_mem names i hi)) hmem
      rw [dLookup_append]
      rw [(dLookup_eq_none_iff self _).mpr hnotself]
      rw [dLookup_zip_get names graph_list hnd i hi hx]
      rfl

/-- Witness for C8 (amended): both branches realized on concrete
inputs. -/
theorem C8_add_graphs_amended_witness :
    addGraphsClaimProp id [] [GVal.network 5] [PyKey.str "x"] ∧
    addGraphsClaimProp id [] [GVal.network 5]
      [PyKey.str "x", PyKey.str "y"] :=
  ⟨C8_add_graphs_amended id [] [GVal.network 5] [PyKey.str "x"],
   C8_add_graphs_amended id [] [GVal.network 5]
     [PyKey.str "x", PyKey.str "y"]⟩

/-- A bundle holding a source graph `g` and a pre-existing member named
`g_R5` (its highest `_R` suffix, 5, exceeds the bundle's size, 2). -/
def bundleEx10 : GraphBundle :=
  [(PyKey.str "g", GVal.network 0), (PyKey.str "g_R5", GVal.network 1)]

/-- A concrete random-graph factory for C10. -/
def grgEx : GVal → Nat → List GVal :=
  fun _ n => (List.range n).map (fun i => GVal.network (100 + i))

/-- C10 counterexample.  On `bundleEx10`,
`create_random_graphs('g', 5)` derives the names `g_R1 … g_R5` — the
search starts at `len(self) = 2` and walks down to `0`, never seeing the
existing suffix `5` — so the names do not start one past the highest
existing suffix (which would be `g_R6 …`), the generated name `g_R5`
collides with the existing key, and that member is silently overwritten
(the bundle grows to 6 entries, not 7). -/
theorem C10_create_random_graphs_counterexample :
    randomNames bundleEx10 "g" 5 "_R" =
      [PyKey.str "g_R1", PyKey.str "g_R2", PyKey.str "g_R3",
       PyKey.str "g_R4", PyKey.str "g_R5"] ∧
    dLookup bundleEx10 (PyKey.str "g_R5") = some (GVal.network 1) ∧
    (create_random_graphs id grgEx bundleEx10 "g" 5 none "_R").map
      (fun d => dLookup d (PyKey.str "g_R5")) = .ok (some (GVal.network 104)) ∧
    (create_random_graphs id grgEx bundleEx10 "g" 5 none "_R").map
      List.length = .ok 6 := by
  refine ⟨?_, ?_, ?_, ?_⟩ <;> rfl

/-- The amended claim C10: the auto-derived names are
`<key><scheme><q+1> … <key><scheme><q+n>` where `q` is the largest index
`≤ len(self)` whose derived name is already a key (`0` if none) — not
necessarily one past the highest existing suffix; provided those `n`
names are fresh and distinct, the bundle is extended in place, every
existing member is preserved, and the size grows by exactly `n`. -/
def createRandomClaimProp (conv : GVal → GVal) (grg : GVal → Nat → List GVal)
    (self : GraphBundle) (key : String) (n : Nat) (scheme : String)
    (g0 : GVal) : Prop :=
  randomNames self key n scheme =
    (List.range n).map
      (fun i => PyKey.str (key ++ scheme ++
        Nat.repr (findQ self key scheme + 1 + i))) ∧
  create_random_graphs conv grg self key n none scheme =
    .ok (self ++ (randomNames self key n scheme).zip (grg g0 n)) ∧
  (self ++ (randomNames self key n scheme).zip (grg g0 n)).length =
    self.length + n ∧
  (∀ k v, dLookup self k = some v →
    dLookup (self ++ (randomNames self key n scheme).zip (grg g0 n)) k =
      some v)

/-- C10 (amended). Proof of the amended claim. -/
theorem C10_create_random_graphs_amended (conv : GVal → GVal)
    (grg : GVal → Nat → List GVal) (self : GraphBundle) (key : String)
    (n : Nat) (scheme : String) (g0 : GVal)
    (hkey : dLookup self (PyKey.str key) = some g0)
    (hlen : (grg g0 n).length = n)
    (hnd : (randomNames self key n scheme).Nodup)
    (hfresh : ∀ k ∈ randomNames self key n scheme, dLookup self k = none) :
    createRandomClaimProp conv grg self key n scheme g0 := by
  have hnames_len : (randomNames self key n scheme).length = n := by
    simp [randomNames]
  have hkeys : dKeys ((randomNames self key n scheme).zip (grg g0 n)) =
      randomNames self key n scheme :=
    dKeys_zip _ _ (by rw [hnames_len, hlen])
  have hznd : (dKeys ((randomNames self key n scheme).zip (grg g0 n))).Nodup := by
    rw [hkeys]
    exact hnd
  have hdisj : ∀ k ∈ dKeys ((randomNames self key n scheme).zip (grg g0 n)),
      k ∉ dKeys self := by
    intro k hk
    rw [hkeys] at hk
    exact (dLookup_eq_none_iff self k).mp (hfresh k hk)
  refine ⟨rfl, ?_, ?_, ?_⟩
  · show (match dLookup self (PyKey.str key) with
      | none => Except.error (PyErr.keyError key)
      | some g => add_graphs conv self (grg g n)
          (some (randomNames self key n scheme))) =
      .ok (self ++ (randomNames self key n scheme).zip (grg g0 n))
    rw [hkey]
    show add_graphs conv self (grg g0 n)
        (some (randomNames self key n scheme)) =
      .ok (self ++ (randomNames self key n scheme).zip (grg g0 n))
    rw [add_graphs_some, if_pos (by rw [hnames_len, hlen])]
    rw [dictOfPairs_nodup _ hznd, dictUpdate_disjoint _ hznd self hdisj]
  · rw [List.length_append, List.length_zip, hnames_len, hlen, Nat.min_self]
  · intro k v hv
    rw [dLookup_append, hv]
    rfl

/-- A one-member bundle for the C10 witness. -/
def bundleEx10w : GraphBundle := [(PyKey.str "h", GVal.network 0)]

/-- Witness for C10 (amended) on `bundleEx10w` with `n = 2`: the
hypotheses hold concretely and the theorem applies. -/
theorem C10_create_random_graphs_amended_witness :
    (dLookup bundleEx10w (PyKey.str "h") = some (GVal.network 0) ∧
      (grgEx (GVal.network 0) 2).length = 2 ∧
      (randomNames bundleEx10w "h" 2 "_R").Nodup ∧
      (∀ k ∈ randomNames bundleEx10w "h" 2 "_R",
        dLookup bundleEx10w k = none)) ∧
    createRandomClaimProp id grgEx bundleEx10w "h" 2 "_R" (GVal.network 0) :=
  ⟨⟨rfl, rfl, by decide, by decide⟩,
   C10_create_random_graphs_amended id grgEx bundleEx10w "h" 2 "_R"
     (GVal.network 0) rfl rfl (by decide) (by decide)⟩
